import Mathlib

/-!
Verification development for the TiKV MVCC transaction actions
(`acquire_pessimistic_lock`, `cleanup`) and the GC compaction filter
(`WriteCompactionFilter`), shallowly embedded from the Rust sources in
`src/storage/txn/actions/acquire_pessimistic_lock.rs`,
`src/storage/txn/actions/cleanup.rs` and
`src/server/gc_worker/compaction_filter.rs`.

Byte strings are modelled as `List Nat`, timestamps as `Nat`.
-/

namespace Tikv

/-- Lexicographic strict order on byte strings (RocksDB key comparison). -/
def listLtB : List Nat → List Nat → Bool
  | [], [] => false
  | [], _ :: _ => true
  | _ :: _, [] => false
  | a :: as, b :: bs => decide (a < b) || (a == b && listLtB as bs)

/-- `write_type` of a write record (`txn_types::WriteType`). -/
inductive WriteType where
  | Put
  | Delete
  | Lock
  | Rollback
deriving DecidableEq

/-- A write-CF record (`txn_types::WriteRef` / `Write`).  The `isProtected`
field is modelled from the spec: `txn_types` is not among the sources; the
spec says a `Rollback` record can carry a protected bit so that GC must not
remove it (§4.2.6). -/
structure Write where
  writeType : WriteType
  startTs : Nat
  shortValue : Option (List Nat)
  hasOverlappedRollback : Bool
  isProtected : Bool
deriving DecidableEq

/-- `lock_type` of a lock record (`txn_types::LockType`). -/
inductive LockType where
  | Put
  | Delete
  | Lock
  | Pessimistic
deriving DecidableEq

/-- A lock-CF record (`txn_types::Lock`), with the fields used by the
embedded actions, in the order of `Lock::new`. -/
structure Lock where
  lockType : LockType
  primary : List Nat
  ts : Nat
  ttl : Nat
  shortValue : Option (List Nat)
  forUpdateTs : Nat
  txnSize : Nat
  minCommitTs : Nat
deriving DecidableEq

/-- Modelled from the spec: `TimeStamp` (from `txn_types`, not among the
sources) has a physical part (milliseconds, high bits) and a logical part
(counter, low 18 bits); `TimeStamp::compose(p, l) = p <<< 18 ||| l`, so
`physical ts = ts / 2^18`. -/
def tsPhysical (ts : Nat) : Nat := ts / 2 ^ 18

/-- The MVCC state of one user key as the snapshot reader sees it:
the current lock (if any), the write-CF records as `(commit_ts, write)`
pairs sorted by decreasing `commit_ts`, and the default-CF values keyed by
`start_ts`. -/
structure KeyState where
  lock : Option Lock
  writes : List (Nat × Write)
  defaults : List (Nat × List Nat)
deriving DecidableEq

/-- `reader.seek_write(key, ts)`: the newest write record with
`commit_ts ≤ ts` (on a descending list, the first such entry). -/
def seekWrite (ws : List (Nat × Write)) (ts : Nat) : Option (Nat × Write) :=
  ws.find? (fun p => decide (p.1 ≤ ts))

/-- `reader.seek_write(key, TimeStamp::max())`: the newest write record. -/
def seekWriteMax (ws : List (Nat × Write)) : Option (Nat × Write) :=
  ws.head?

/-- `reader.load_data(key, write)`: the short value if inlined, otherwise
the default-CF entry at the write's `start_ts`. -/
def loadData (st : KeyState) (w : Write) : List Nat :=
  match w.shortValue with
  | some v => v
  | none => (((st.defaults.find? (fun p => p.1 == w.startTs)).map Prod.snd).getD [])

/-- Modelled from the spec: `MvccReader::get` (not among the sources) reads
the committed value visible at `ts`: the newest `Put` (its data) or
`Delete` (absence) at or before `ts`, skipping `Lock` and `Rollback`
records (§4.1.2 step 4). -/
def getValueGo (st : KeyState) : List (Nat × Write) → Nat → Option (List Nat)
  | [], _ => none
  | (cts, w) :: rest, ts =>
    if cts > ts then getValueGo st rest ts
    else match w.writeType with
      | WriteType.Put => some (loadData st w)
      | WriteType.Delete => none
      | _ => getValueGo st rest (cts - 1)

/-- Modelled from the spec: committed read at `ts` (see `getValueGo`). -/
def getValue (st : KeyState) (ts : Nat) : Option (List Nat) :=
  getValueGo st st.writes ts

/-- A buffered modification of `MvccTxn` (`txn.put_lock`, `txn.unlock_key`,
`txn.put_write`, setting `has_overlapped_rollback` on an existing write). -/
inductive Modify where
  | putLock (l : Lock)
  | deleteLock
  | putWrite (cts : Nat) (w : Write)
  | setOverlappedRollback (cts : Nat)
deriving DecidableEq

/-- The MVCC error kinds surfaced by the embedded actions
(`mvcc::ErrorInner`); `AssertionFailed` models a Rust `assert!` panic. -/
inductive MvccError where
  | KeyIsLocked (l : Lock)
  | LockTypeNotMatch (startTs : Nat)
  | WriteConflict (startTs conflictStartTs conflictCommitTs : Nat)
  | PessimisticLockRolledBack (startTs : Nat)
  | AlreadyExist
  | Committed (commitTs : Nat)
  | AssertionFailed
deriving DecidableEq

/-- Modelled from the spec: `MvccTxn::check_data_constraint` (not among the
sources) enforces `should_not_exist` against the discovered write record:
a `Delete` means the key does not exist, a `Put` means it does, and for
`Lock`/`Rollback` the committed value right before `commit_ts` decides
(§4.1.2 step 3, error `AlreadyExist`).  Returns `true` when violated. -/
def checkDataConstraint (st : KeyState) (shouldNotExist : Bool) (w : Write)
    (cts : Nat) : Bool :=
  shouldNotExist &&
    (match w.writeType with
     | WriteType.Delete => false
     | WriteType.Put => true
     | _ => (getValue st (cts - 1)).isSome)

/-- The fresh pessimistic lock built by the local `pessimistic_lock`
function inside `acquire_pessimistic_lock`. -/
def pessimisticLock (primary : List Nat) (startTs lockTtl forUpdateTs
    minCommitTs : Nat) : Lock :=
  { lockType := LockType.Pessimistic
    primary := primary
    ts := startTs
    ttl := lockTtl
    shortValue := none
    forUpdateTs := forUpdateTs
    txnSize := 0
    minCommitTs := minCommitTs }

/-- `acquire_pessimistic_lock` (acquire_pessimistic_lock.rs, lines 8-146),
embedded over the single key's state.  `buf` is the transaction's
modification buffer; errors return it as it stands at the error point. -/
def acquirePessimisticLock (st : KeyState) (buf : List Modify)
    (startTs : Nat) (primary : List Nat) (shouldNotExist : Bool)
    (lockTtl forUpdateTs : Nat) (needValue : Bool) (minCommitTs : Nat) :
    Except (MvccError × List Modify) (Option (List Nat) × List Modify) :=
  let newLock := pessimisticLock primary startTs lockTtl forUpdateTs minCommitTs
  match st.lock with
  | some lock =>
    if lock.ts ≠ startTs then
      Except.error (MvccError.KeyIsLocked lock, buf)
    else if lock.lockType ≠ LockType.Pessimistic then
      Except.error (MvccError.LockTypeNotMatch startTs, buf)
    else
      let val := if needValue then getValue st forUpdateTs else none
      if forUpdateTs > lock.forUpdateTs then
        Except.ok (val, buf ++ [Modify.putLock newLock])
      else
        Except.ok (val, buf)
  | none =>
    match seekWriteMax st.writes with
    | some (commitTs, write) =>
      if commitTs > forUpdateTs then
        Except.error
          (MvccError.WriteConflict startTs write.startTs commitTs, buf)
      else if commitTs = startTs ∧
          (write.writeType = WriteType.Rollback ∨ write.hasOverlappedRollback) then
        if write.hasOverlappedRollback ∨ write.startTs = commitTs then
          Except.error (MvccError.PessimisticLockRolledBack startTs, buf)
        else
          Except.error (MvccError.AssertionFailed, buf)
      else
        let rollbackHit : Option MvccError :=
          if commitTs > startTs then
            match seekWrite st.writes startTs with
            | some (cts2, w2) =>
              if w2.startTs = startTs then
                if cts2 = startTs ∧ w2.writeType = WriteType.Rollback then
                  some (MvccError.PessimisticLockRolledBack startTs)
                else
                  some MvccError.AssertionFailed
              else none
            | none => none
          else none
        match rollbackHit with
        | some e => Except.error (e, buf)
        | none =>
          if checkDataConstraint st shouldNotExist write commitTs then
            Except.error (MvccError.AlreadyExist, buf)
          else
            let val :=
              if needValue then
                match write.writeType with
                | WriteType.Put => some (loadData st write)
                | WriteType.Delete => none
                | _ => getValue st (commitTs - 1)
              else none
            Except.ok (val, buf ++ [Modify.putLock newLock])
    | none => Except.ok (none, buf ++ [Modify.putLock newLock])

/-- Insert a write record into the descending `(commit_ts, write)` list. -/
def insertWrite (ws : List (Nat × Write)) (cts : Nat) (w : Write) :
    List (Nat × Write) :=
  match ws with
  | [] => [(cts, w)]
  | p :: rest =>
    if cts ≥ p.1 then (cts, w) :: p :: rest else p :: insertWrite rest cts w

/-- Apply one buffered modification to the key's state. -/
def applyModify (st : KeyState) : Modify → KeyState
  | Modify.putLock l => { st with lock := some l }
  | Modify.deleteLock => { st with lock := none }
  | Modify.putWrite cts w => { st with writes := insertWrite st.writes cts w }
  | Modify.setOverlappedRollback cts =>
    { st with
      writes := st.writes.map (fun p =>
        if p.1 == cts then (p.1, { p.2 with hasOverlappedRollback := true })
        else p) }

/-- Apply a batch of buffered modifications. -/
def applyModifies (st : KeyState) (mods : List Modify) : KeyState :=
  mods.foldl applyModify st

/-- Run `acquire_pessimistic_lock` and commit its buffered modifications to
the key's state (errors leave the state unchanged). -/
def runAcquire (st : KeyState) (startTs : Nat) (primary : List Nat)
    (shouldNotExist : Bool) (lockTtl forUpdateTs : Nat) (needValue : Bool)
    (minCommitTs : Nat) : KeyState :=
  match acquirePessimisticLock st [] startTs primary shouldNotExist lockTtl
      forUpdateTs needValue minCommitTs with
  | Except.ok (_, mods) => applyModifies st mods
  | Except.error _ => st

/-- Transaction status returned by the missing-lock check
(`TxnStatus`, the variants `cleanup` matches on). -/
inductive TxnStatus where
  | Committed (commitTs : Nat)
  | RolledBack
  | LockNotExist
deriving DecidableEq

/-- Modelled from the spec: locating the trace of transaction `startTs`
among the write records (`get_txn_commit_record`, not among the sources):
a record written by `startTs`, or a record at commit position `startTs`
carrying `has_overlapped_rollback` (§4.1.5). -/
def findTxnRecord (ws : List (Nat × Write)) (startTs : Nat) :
    Option (Nat × Write) :=
  ws.find? (fun p =>
    p.2.startTs == startTs || (p.1 == startTs && p.2.hasOverlappedRollback))

/-- The rollback record written for `startTs` (`Write::new_rollback`). -/
def rollbackRecord (startTs : Nat) (protect : Bool) : Write :=
  { writeType := WriteType.Rollback
    startTs := startTs
    shortValue := none
    hasOverlappedRollback := false
    isProtected := protect }

/-- Modelled from the spec: `check_txn_status_missing_lock` (from
`check_txn_status.rs`, not among the sources).  With
`MissingLockAction::rollback_protect(protect)`: if a commit record already
exists for `startTs` return `Committed`; if a rollback trace exists return
`RolledBack`; otherwise buffer a rollback record (protected iff `protect`)
and return `LockNotExist` (§4.1.5).  The mismatching lock, if any, is not
touched. -/
def checkTxnStatusMissingLock (st : KeyState) (buf : List Modify)
    (startTs : Nat) (protect : Bool) : TxnStatus × List Modify :=
  match findTxnRecord st.writes startTs with
  | some (cts, w) =>
    if w.writeType = WriteType.Rollback ∨ w.hasOverlappedRollback then
      (TxnStatus.RolledBack, buf)
    else
      (TxnStatus.Committed cts, buf)
  | none =>
    (TxnStatus.LockNotExist,
      buf ++ [Modify.putWrite startTs (rollbackRecord startTs protect)])

/-- Modelled from the spec: `MvccTxn::check_write_and_rollback_lock` (not
among the sources).  The lock belongs to the requesting transaction:
delete it and write a `Rollback` record at `start_ts` — protected when the
transaction is pessimistic — unless a committed `Put|Delete|Lock` record
already exists at commit position `start_ts`, in which case set
`has_overlapped_rollback` on it instead (§4.1.5). -/
def checkWriteAndRollbackLock (st : KeyState) (buf : List Modify)
    (startTs : Nat) (lock : Lock) (isPessimisticTxn : Bool) :
    Option Lock × List Modify :=
  let buf' :=
    match seekWrite st.writes startTs with
    | some (cts, w) =>
      if cts = startTs ∧ w.writeType ≠ WriteType.Rollback then
        buf ++ [Modify.setOverlappedRollback cts]
      else
        buf ++ [Modify.putWrite startTs (rollbackRecord startTs isPessimisticTxn)]
    | none =>
      buf ++ [Modify.putWrite startTs (rollbackRecord startTs isPessimisticTxn)]
  (some lock, buf' ++ [Modify.deleteLock])

/-- `cleanup` (cleanup.rs, lines 16-58), embedded over the single key's
state.  `buf` is the transaction's modification buffer; errors return it
as it stands at the error point. -/
def cleanup (st : KeyState) (buf : List Modify) (startTs currentTs : Nat)
    (protectRollback : Bool) :
    Except (MvccError × List Modify) (Option Lock × List Modify) :=
  match st.lock with
  | some lock =>
    if lock.ts = startTs then
      if currentTs ≠ 0 ∧ tsPhysical lock.ts + lock.ttl ≥ tsPhysical currentTs then
        Except.error (MvccError.KeyIsLocked lock, buf)
      else
        let isPessimisticTxn := lock.forUpdateTs ≠ 0
        Except.ok (checkWriteAndRollbackLock st buf startTs lock isPessimisticTxn)
    else
      match checkTxnStatusMissingLock st buf startTs protectRollback with
      | (TxnStatus.Committed commitTs, buf') =>
        Except.error (MvccError.Committed commitTs, buf')
      | (TxnStatus.RolledBack, buf') => Except.ok (none, buf')
      | (TxnStatus.LockNotExist, buf') => Except.ok (none, buf')
  | none =>
    match checkTxnStatusMissingLock st buf startTs protectRollback with
    | (TxnStatus.Committed commitTs, buf') =>
      Except.error (MvccError.Committed commitTs, buf')
    | (TxnStatus.RolledBack, buf') => Except.ok (none, buf')
    | (TxnStatus.LockNotExist, buf') => Except.ok (none, buf')

/-! ## GC compaction filter (compaction_filter.rs) -/

/-- A write-CF physical key: user key plus commit timestamp.  The
descending-timestamp encoding is modelled by `physLtB`. -/
structure PhysKey where
  user : List Nat
  ts : Nat
deriving DecidableEq

/-- Ascending order on encoded physical keys: user key lexicographically
ascending, then timestamp descending (the descending-ts encoding). -/
def physLtB (a b : PhysKey) : Bool :=
  listLtB a.user b.user || (a.user == b.user && decide (b.ts < a.ts))

/-- `a <= b` on encoded physical keys. -/
def physLeB (a b : PhysKey) : Bool :=
  physLtB a b || a == b

/-- `DEFAULT_DELETE_BATCH_SIZE` (the write batch's initial capacity). -/
def DEFAULT_DELETE_BATCH_SIZE : Nat := 256 * 1024

/-- `DEFAULT_DELETE_BATCH_COUNT`. -/
def DEFAULT_DELETE_BATCH_COUNT : Nat := 128

/-- `NEAR_SEEK_LIMIT`. -/
def NEAR_SEEK_LIMIT : Nat := 16

/-- A side-band deletion issued by the filter: a write-CF delete
(`delete_cf(CF_WRITE, key)`) or a default-CF delete (`delete(def_key)`). -/
inductive BatchOp where
  | delWrite (k : PhysKey)
  | delDefault (k : PhysKey)
deriving DecidableEq

/-- A placeholder entry for guarded out-of-range accesses. -/
def dummyEntry : PhysKey × Write :=
  (⟨[], 0⟩, ⟨WriteType.Put, 0, none, false, false⟩)

/-- The state of `WriteCompactionFilter`.  `db` is the write-CF content
seen by the internal iterator (sorted ascending by `physLtB`), `iterPos`
its position (`≥ db.length` means invalid), `writeBatch` the pending
side-band deletions and `engineOps` the ones already flushed to the
engine.  `walSynced` records the `sync_wal` done on drop. -/
structure FilterState where
  safePoint : Nat
  db : List (PhysKey × Write)
  keyPfx : List Nat
  removeOlder : Bool
  iterPos : Nat
  nearSeekDistance : Nat
  versions : Nat
  filtered : Nat
  deleted : Nat
  totalVersions : Nat
  totalFiltered : Nat
  totalDeleted : Nat
  writeBatch : List BatchOp
  engineOps : List BatchOp
  walSynced : Bool
deriving DecidableEq

/-- A fresh `WriteCompactionFilter` over write-CF content `db`
(`WriteCompactionFilter::new`). -/
def newFilter (safePoint : Nat) (db : List (PhysKey × Write)) : FilterState :=
  { safePoint := safePoint
    db := db
    keyPfx := []
    removeOlder := false
    iterPos := db.length
    nearSeekDistance := NEAR_SEEK_LIMIT
    versions := 0
    filtered := 0
    deleted := 0
    totalVersions := 0
    totalFiltered := 0
    totalDeleted := 0
    writeBatch := []
    engineOps := []
    walSynced := false }

/-- `flush_pending_writes_if_need`: write the batch to the engine when it
holds more than `DEFAULT_DELETE_BATCH_COUNT` operations. -/
def flushPendingWritesIfNeed (s : FilterState) : FilterState :=
  if s.writeBatch.length > DEFAULT_DELETE_BATCH_COUNT then
    { s with engineOps := s.engineOps ++ s.writeBatch, writeBatch := [] }
  else s

/-- `handle_filtered_write`: for a dropped `Put` with no inline short
value, schedule deletion of the default-CF entry at
`(key_prefix, start_ts)`. -/
def handleFilteredWrite (s : FilterState) (w : Write) : FilterState :=
  if w.shortValue = none ∧ w.writeType = WriteType.Put then
    flushPendingWritesIfNeed
      { s with writeBatch := s.writeBatch ++ [BatchOp.delDefault ⟨s.keyPfx, w.startTs⟩] }
  else s

/-- `delete_write_key`: schedule deletion of a write-CF key. -/
def deleteWriteKey (s : FilterState) (k : PhysKey) : FilterState :=
  let s := flushPendingWritesIfNeed
    { s with writeBatch := s.writeBatch ++ [BatchOp.delWrite k] }
  { s with deleted := s.deleted + 1 }

/-- `switch_key_metrics`: roll the per-key counters into the totals. -/
def switchKeyMetrics (s : FilterState) : FilterState :=
  let s := if s.versions ≠ 0 then
      { s with totalVersions := s.totalVersions + s.versions, versions := 0 }
    else s
  let s := if s.filtered ≠ 0 then
      { s with totalFiltered := s.totalFiltered + s.filtered, filtered := 0 }
    else s
  { s with totalDeleted := s.totalDeleted + s.deleted, deleted := 0 }

/-- The first index whose key is `≥ mark` (RocksDB `seek` target);
`db.length` when every key is smaller. -/
def lowerBound (db : List (PhysKey × Write)) (mark : PhysKey) : Nat :=
  match db with
  | [] => 0
  | p :: rest => if physLeB mark p.1 then 0 else lowerBound rest mark + 1

/-- The `next`-scan loop inside `write_iter_seek_to`: from position `pos`,
advance while the key is `< mark`, for at most `fuel` probes.  Returns
`(position, valid, found)`. -/
def nearLoop (db : List (PhysKey × Write)) (mark : PhysKey) :
    Nat → Nat → Nat × Bool × Bool
  | fuel, pos =>
    if pos ≥ db.length then (pos, false, false)
    else
      match fuel with
      | 0 => (pos, true, false)
      | fuel + 1 =>
        if physLeB mark (db.getD pos dummyEntry).1 then (pos, true, true)
        else nearLoop db mark fuel (pos + 1)

/-- `write_iter_seek_to`: position the internal iterator at `mark`, with
the near-seek heuristic (a plain `seek` if the last `seek` was more than
`NEAR_SEEK_LIMIT` records ago, otherwise up to `NEAR_SEEK_LIMIT` `next`s
with a `seek` fallback).  Returns the new state and the `valid` flag. -/
def writeIterSeekTo (s : FilterState) (mark : PhysKey) : FilterState × Bool :=
  if s.nearSeekDistance ≥ NEAR_SEEK_LIMIT then
    let lb := lowerBound s.db mark
    ({ s with nearSeekDistance := 0, iterPos := lb }, decide (lb < s.db.length))
  else
    let r := nearLoop s.db mark (NEAR_SEEK_LIMIT + 1) s.iterPos
    if r.2.1 ∧ ¬r.2.2 then
      let lb := lowerBound s.db mark
      ({ s with nearSeekDistance := 0, iterPos := lb }, decide (lb < s.db.length))
    else
      ({ s with nearSeekDistance := 0, iterPos := r.1 }, r.2.1)

/-- The deletion loop of `handle_delete_mark`: while the iterator is valid
and the current key still shares the user key with `key_prefix`, delete
the write record (and its default-CF entry when applicable) and advance.
`fuel` bounds the iterations by the remaining records. -/
def hdmLoop (s : FilterState) : Nat → FilterState
  | 0 => s
  | fuel + 1 =>
    if s.iterPos < s.db.length then
      let e := s.db.getD s.iterPos dummyEntry
      if e.1.user ≠ s.keyPfx then s
      else
        let s1 := handleFilteredWrite s e.2
        let s2 := deleteWriteKey s1 e.1
        hdmLoop { s2 with iterPos := s2.iterPos + 1 } fuel
    else s

/-- `handle_delete_mark`: seek the internal iterator to the dropped delete
mark, skip the mark itself, then delete every following record of the same
user key. -/
def handleDeleteMark (s : FilterState) (mark : PhysKey) : FilterState :=
  let p := writeIterSeekTo s mark
  let s1 := p.1
  let s2 :=
    if p.2 ∧ (s1.db.getD s1.iterPos dummyEntry).1 = mark then
      { s1 with iterPos := s1.iterPos + 1 }
    else s1
  hdmLoop s2 (s2.db.length - s2.iterPos)

/-- `CompactionFilter::filter` for one input record: returns the new state
and the decision (`true` = drop the record). -/
def filterStep (s : FilterState) (key : PhysKey) (value : Write) :
    FilterState × Bool :=
  let s := { s with nearSeekDistance := s.nearSeekDistance + 1 }
  if key.ts > s.safePoint then (s, false)
  else
    let s := { s with versions := s.versions + 1 }
    let s :=
      if s.keyPfx ≠ key.user then
        switchKeyMetrics { s with keyPfx := key.user, removeOlder := false }
      else s
    let r : FilterState × Bool :=
      if s.removeOlder then (s, true)
      else
        match value.writeType with
        | WriteType.Rollback => (s, true)
        | WriteType.Lock => (s, true)
        | WriteType.Put => ({ s with removeOlder := true }, false)
        | WriteType.Delete =>
          (handleDeleteMark { s with removeOlder := true } key, true)
    if r.2 then
      let s := handleFilteredWrite r.1 value
      ({ s with filtered := s.filtered + 1 }, true)
    else r

/-- `impl Drop for WriteCompactionFilter`: flush any residual batch, sync
the WAL and roll up the per-key metrics. -/
def dropFilter (s : FilterState) : FilterState :=
  let s :=
    if s.writeBatch ≠ [] then
      { s with engineOps := s.engineOps ++ s.writeBatch, writeBatch := [] }
    else s
  let s := { s with walSynced := true }
  switchKeyMetrics s

/-- Run the filter over a list of compaction input records; returns the
final state and the records the compaction keeps. -/
def runFilter (s : FilterState) :
    List (PhysKey × Write) → FilterState × List (PhysKey × Write)
  | [] => (s, [])
  | (k, v) :: rest =>
    let r := filterStep s k v
    let rec' := runFilter r.1 rest
    if r.2 then rec' else (rec'.1, (k, v) :: rec'.2)

/-- All side-band deletions issued so far (flushed or still pending). -/
def cumOps (s : FilterState) : List BatchOp :=
  s.engineOps ++ s.writeBatch

/-- The total byte size of the pending batch (each delete carries its
encoded key: user key bytes plus an 8-byte timestamp). -/
def batchDataSize (s : FilterState) : Nat :=
  (s.writeBatch.map (fun op =>
    match op with
    | BatchOp.delWrite k => k.user.length + 8
    | BatchOp.delDefault k => k.user.length + 8)).sum

/-- The write records that remain after a compaction that processed
`inputs` over write-CF content `db`: records the filter kept, minus the
side-band write-CF deletions, together with db records that were not part
of the compaction input, minus the same deletions. -/
def remainingWrites (safePoint : Nat) (db inputs : List (PhysKey × Write)) :
    List (PhysKey × Write) :=
  let r := runFilter (newFilter safePoint db) inputs
  let final := dropFilter r.1
  (r.2 ++ db.filter (fun p => ¬ inputs.contains p)).filter
    (fun p => ¬ (cumOps final).contains (BatchOp.delWrite p.1))

/-- The default-CF keys that remain after the compaction. -/
def remainingDefaults (safePoint : Nat) (db inputs : List (PhysKey × Write))
    (defaults : List PhysKey) : List PhysKey :=
  let r := runFilter (newFilter safePoint db) inputs
  let final := dropFilter r.1
  defaults.filter (fun k => ¬ (cumOps final).contains (BatchOp.delDefault k))

/-- The key at index `i` of the iterator's view of the write CF. -/
def keyAt (db : List (PhysKey × Write)) (i : Nat) : PhysKey :=
  (db.getD i dummyEntry).1

/-- The write-CF content is sorted strictly ascending under `physLtB`
(adjacent-pair check; transitivity gives the pairwise order). -/
def sortedB : List (PhysKey × Write) → Bool
  | [] => true
  | [_] => true
  | a :: b :: rest => physLtB a.1 b.1 && sortedB (b :: rest)

/-! ## Concrete fixtures -/

/-- A user key for the GC scenarios. -/
def gcKey : List Nat := [107]

/-- A protected `Rollback` record with `commit_ts = start_ts = 40`. -/
def protectedRollbackWrite : Write :=
  { writeType := WriteType.Rollback
    startTs := 40
    shortValue := none
    hasOverlappedRollback := false
    isProtected := true }

/-- A filter over a write CF holding only the protected rollback, with
safe-point 100. -/
def c1State : FilterState :=
  newFilter 100 [(⟨gcKey, 40⟩, protectedRollbackWrite)]

/-- An (unprotected) `Rollback` record at `commit_ts = start_ts = 10`. -/
def c4Rollback : Write :=
  { writeType := WriteType.Rollback
    startTs := 10
    shortValue := none
    hasOverlappedRollback := false
    isProtected := false }

/-- Key state with no lock and the rollback of transaction 10 as the
newest write record. -/
def c4State : KeyState := ⟨none, [(10, c4Rollback)], []⟩

/-- A write-CF key with a 2200-byte user key. -/
def c8BigKey : PhysKey := ⟨List.replicate 2200 0, 5⟩

/-- A filter whose pending batch holds 120 deletes of 2200-byte keys:
264,960 bytes in total — beyond 256 KiB — but only 120 operations. -/
def c8State : FilterState :=
  { newFilter 100 [] with
    writeBatch := List.replicate 120 (BatchOp.delWrite c8BigKey) }

/-- A filter whose pending batch holds 129 small deletes (over the count
threshold). -/
def c8FullState : FilterState :=
  { newFilter 100 [] with
    writeBatch := List.replicate 129 (BatchOp.delWrite ⟨[], 0⟩) }

/-- A pessimistic lock held by transaction `ts = 10·2^18` (physical part
10) with TTL 100 ms. -/
def c6Lock : Lock :=
  { lockType := LockType.Pessimistic
    primary := gcKey
    ts := 10 * 2 ^ 18
    ttl := 100
    shortValue := none
    forUpdateTs := 5
    txnSize := 0
    minCommitTs := 0 }

/-- Key state holding `c6Lock` and nothing else. -/
def c6State : KeyState := ⟨some c6Lock, [], []⟩

/-- S4: `k=v1` committed at 110 (start 100). -/
def s4Put1 : Write := ⟨WriteType.Put, 100, none, false, false⟩

/-- S4: `k=v2` committed at 130 (start 120). -/
def s4Put2 : Write := ⟨WriteType.Put, 120, none, false, false⟩

/-- S4: the delete marker committed at 145 (start 140). -/
def s4Del : Write := ⟨WriteType.Delete, 140, none, false, false⟩

/-- S4: the write CF for `k`, in ascending physical-key order. -/
def s4Db : List (PhysKey × Write) :=
  [(⟨gcKey, 145⟩, s4Del), (⟨gcKey, 130⟩, s4Put2), (⟨gcKey, 110⟩, s4Put1)]

/-- S4: the default-CF keys behind the two puts. -/
def s4Defaults : List PhysKey := [⟨gcKey, 120⟩, ⟨gcKey, 100⟩]

/-! ## Theorems -/

/-- C1: the per-record filter decision drops a `Rollback` record whose
protected bit is set as soon as its `commit_ts` is at or below the
safe-point — contradicting the spec, which requires protected rollbacks to
survive GC.  Evaluated at the failing input: safe-point 100, a protected
rollback at `commit_ts = 40`; the filter returns `true` (drop). -/
theorem C1_protected_rollback_dropped :
    protectedRollbackWrite.isProtected = true ∧
    (40 : Nat) ≤ c1State.safePoint ∧
    (filterStep c1State ⟨gcKey, 40⟩ protectedRollbackWrite).2 = true := by
  refine ⟨rfl, by decide, ?_⟩
  decide

/-- C2: a record whose `commit_ts` exceeds the safe-point is kept (`false`)
and the only state change is the near-seek distance bump: version
counters, `key_prefix`, `remove_older`, the pending batch and the engine
writes are all untouched. -/
theorem C2_newer_than_safe_point_kept (s : FilterState) (key : PhysKey)
    (w : Write) (h : key.ts > s.safePoint) :
    filterStep s key w =
      ({ s with nearSeekDistance := s.nearSeekDistance + 1 }, false) := by
  unfold filterStep
  simp [h]

/-- C2 witness: a concrete record above the safe-point is kept without any
side effect. -/
theorem C2_witness :
    (200 : Nat) > (newFilter 100 []).safePoint ∧
    filterStep (newFilter 100 []) ⟨[1], 200⟩ s4Put1 =
      ({ newFilter 100 [] with nearSeekDistance := NEAR_SEEK_LIMIT + 1 }, false) :=
  ⟨by decide, C2_newer_than_safe_point_kept (newFilter 100 []) ⟨[1], 200⟩ s4Put1 (by decide)⟩

/-- C5: with no lock on the key, a newest write record with `commit_ts`
strictly above `for_update_ts` makes `acquire_pessimistic_lock` fail with
`WriteConflict` carrying the transaction's `start_ts` and the conflicting
record's `start_ts` and `commit_ts`, leaving the buffer untouched. -/
theorem C5_write_conflict (st : KeyState) (buf : List Modify)
    (startTs : Nat) (primary : List Nat) (sne : Bool) (ttl futs : Nat)
    (nv : Bool) (mcts cts : Nat) (w : Write)
    (hl : st.lock = none) (hw : seekWriteMax st.writes = some (cts, w))
    (hc : cts > futs) :
    acquirePessimisticLock st buf startTs primary sne ttl futs nv mcts =
      Except.error (MvccError.WriteConflict startTs w.startTs cts, buf) := by
  unfold acquirePessimisticLock
  rw [hl, hw]
  simp [hc]

/-- C5 witness: a transaction with `start_ts = 3`, `for_update_ts = 5`
meets the record committed at 10 and fails with `WriteConflict 3 10 10`. -/
theorem C5_witness :
    c4State.lock = none ∧
    seekWriteMax c4State.writes = some (10, c4Rollback) ∧
    (10 : Nat) > 5 ∧
    acquirePessimisticLock c4State [] 3 gcKey false 0 5 false 0 =
      Except.error (MvccError.WriteConflict 3 c4Rollback.startTs 10, []) :=
  ⟨rfl, rfl, by decide,
    C5_write_conflict c4State [] 3 gcKey false 0 5 false 0 10 c4Rollback rfl rfl (by decide)⟩

/-- `switch_key_metrics` only moves counters; the pending batch is kept. -/
@[simp] theorem switchKeyMetrics_writeBatch (s : FilterState) :
    (switchKeyMetrics s).writeBatch = s.writeBatch := by
  by_cases h1 : s.versions = 0 <;> by_cases h2 : s.filtered = 0 <;>
    simp [switchKeyMetrics, h1, h2]

/-- `switch_key_metrics` does not write to the engine. -/
@[simp] theorem switchKeyMetrics_engineOps (s : FilterState) :
    (switchKeyMetrics s).engineOps = s.engineOps := by
  by_cases h1 : s.versions = 0 <;> by_cases h2 : s.filtered = 0 <;>
    simp [switchKeyMetrics, h1, h2]

/-- `switch_key_metrics` does not sync the WAL. -/
@[simp] theorem switchKeyMetrics_walSynced (s : FilterState) :
    (switchKeyMetrics s).walSynced = s.walSynced := by
  by_cases h1 : s.versions = 0 <;> by_cases h2 : s.filtered = 0 <;>
    simp [switchKeyMetrics, h1, h2]

/-- C8 (amended): the batch is flushed exactly when its operation count
exceeds `DEFAULT_DELETE_BATCH_COUNT` (128) — the byte size is never
consulted — and on drop any residual non-empty batch is written to the
engine followed by a WAL sync. -/
theorem C8_flush_threshold :
    (∀ s : FilterState, s.writeBatch.length > DEFAULT_DELETE_BATCH_COUNT →
      flushPendingWritesIfNeed s =
        { s with engineOps := s.engineOps ++ s.writeBatch, writeBatch := [] }) ∧
    (∀ s : FilterState, s.writeBatch.length ≤ DEFAULT_DELETE_BATCH_COUNT →
      flushPendingWritesIfNeed s = s) ∧
    (∀ s : FilterState, s.writeBatch ≠ [] →
      (dropFilter s).engineOps = s.engineOps ++ s.writeBatch ∧
      (dropFilter s).writeBatch = [] ∧ (dropFilter s).walSynced = true) := by
  refine ⟨?_, ?_, ?_⟩
  · intro s h
    unfold flushPendingWritesIfNeed
    simp [h]
  · intro s h
    unfold flushPendingWritesIfNeed
    simp [Nat.not_lt.2 h]
  · intro s h
    unfold dropFilter
    simp [h]

/-- C8 counterexample: a pending batch whose byte size exceeds the claimed
256 KiB threshold but holds only one operation is NOT flushed, refuting
the "or 256 KiB" flush trigger of the claim. -/
theorem C8_size_not_a_trigger :
    batchDataSize c8State > DEFAULT_DELETE_BATCH_SIZE ∧
    c8State.writeBatch.length ≤ DEFAULT_DELETE_BATCH_COUNT ∧
    flushPendingWritesIfNeed c8State = c8State := by
  have hb : c8State.writeBatch =
      List.replicate 120 (BatchOp.delWrite c8BigKey) := rfl
  have hk : c8BigKey.user.length = 2200 := by
    rw [c8BigKey]
    exact List.length_replicate 2200 0
  have hcount : c8State.writeBatch.length ≤ DEFAULT_DELETE_BATCH_COUNT := by
    rw [hb, List.length_replicate, DEFAULT_DELETE_BATCH_COUNT]
    norm_num
  refine ⟨?_, hcount, ?_⟩
  · rw [batchDataSize, hb, List.map_replicate]
    simp only [hk]
    rw [List.sum_replicate, smul_eq_mul, DEFAULT_DELETE_BATCH_SIZE]
    norm_num
  · have h : ¬ c8State.writeBatch.length > DEFAULT_DELETE_BATCH_COUNT := by
      intro hgt
      rw [DEFAULT_DELETE_BATCH_COUNT] at hcount hgt
      omega
    unfold flushPendingWritesIfNeed
    simp [h]

/-- C8 witness: a batch of 129 operations is over the count threshold and
gets flushed; dropping a filter with a residual one-op batch writes it out
and syncs the WAL. -/
theorem C8_flush_threshold_witness :
    (c8FullState.writeBatch.length > DEFAULT_DELETE_BATCH_COUNT ∧
      flushPendingWritesIfNeed c8FullState =
        { c8FullState with
          engineOps := c8FullState.engineOps ++ c8FullState.writeBatch,
          writeBatch := [] }) ∧
    (c8State.writeBatch ≠ [] ∧
      (dropFilter c8State).engineOps = c8State.engineOps ++ c8State.writeBatch ∧
      (dropFilter c8State).writeBatch = [] ∧
      (dropFilter c8State).walSynced = true) := by
  constructor
  · have h : c8FullState.writeBatch.length > DEFAULT_DELETE_BATCH_COUNT := by
      have : c8FullState.writeBatch =
          List.replicate 129 (BatchOp.delWrite ⟨[], 0⟩) := rfl
      rw [this, List.length_replicate]
      decide
    exact ⟨h, C8_flush_threshold.1 c8FullState h⟩
  · have h : c8State.writeBatch ≠ [] := by
      have hb : c8State.writeBatch =
          List.replicate 120 (BatchOp.delWrite c8BigKey) := rfl
      rw [hb]
      simp
    exact ⟨h, C8_flush_threshold.2.2 c8State h⟩

/-- C4 counterexample: with `start_ts = 10`, `for_update_ts = 5` and the
newest record a `Rollback` at `commit_ts = 10 = start_ts`, the claim says
the call fails with `PessimisticLockRolledBack`, but the code's
`WriteConflict` check (`commit_ts > for_update_ts`) takes precedence. -/
theorem C4_write_conflict_precedence :
    c4State.lock = none ∧
    seekWriteMax c4State.writes = some (10, c4Rollback) ∧
    c4Rollback.writeType = WriteType.Rollback ∧
    acquirePessimisticLock c4State [] 10 gcKey false 0 5 false 0 =
      Except.error (MvccError.WriteConflict 10 10 10, []) :=
  ⟨rfl, rfl, rfl, rfl⟩

/-- C4 (amended): provided `commit_ts ≤ for_update_ts` (so the
`WriteConflict` check does not fire first) and the records are well formed
in the sense of the code's own assertions, the two rollback checks fail
with `PessimisticLockRolledBack`: (1) the newest record sits at
`commit_ts = start_ts` and is a `Rollback` or carries
`has_overlapped_rollback`; (2) the newest `commit_ts` is above `start_ts`
and the re-seek from `start_ts` finds this transaction's rollback. -/
theorem C4_rollback_detect :
    (∀ (st : KeyState) (buf : List Modify) (startTs : Nat)
       (primary : List Nat) (sne : Bool) (ttl futs : Nat) (nv : Bool)
       (mcts cts : Nat) (w : Write),
       st.lock = none → seekWriteMax st.writes = some (cts, w) →
       cts ≤ futs → cts = startTs →
       (w.writeType = WriteType.Rollback ∨ w.hasOverlappedRollback = true) →
       (w.hasOverlappedRollback = true ∨ w.startTs = cts) →
       acquirePessimisticLock st buf startTs primary sne ttl futs nv mcts =
         Except.error (MvccError.PessimisticLockRolledBack startTs, buf)) ∧
    (∀ (st : KeyState) (buf : List Modify) (startTs : Nat)
       (primary : List Nat) (sne : Bool) (ttl futs : Nat) (nv : Bool)
       (mcts cts : Nat) (w w2 : Write),
       st.lock = none → seekWriteMax st.writes = some (cts, w) →
       cts ≤ futs → cts > startTs →
       seekWrite st.writes startTs = some (startTs, w2) →
       w2.startTs = startTs → w2.writeType = WriteType.Rollback →
       acquirePessimisticLock st buf startTs primary sne ttl futs nv
         mcts =
         Except.error (MvccError.PessimisticLockRolledBack startTs, buf)) := by
  constructor
  · intro st buf startTs primary sne ttl futs nv mcts cts w hl hw hle hcs hrb hwf
    unfold acquirePessimisticLock
    rw [hl, hw]
    dsimp only
    rw [if_neg (Nat.not_lt.2 hle), if_pos ⟨hcs, hrb⟩, if_pos hwf]
  · intro st buf startTs primary sne ttl futs nv mcts cts w w2 hl hw hle hgt
      hw2 hs2 hrb2
    unfold acquirePessimisticLock
    rw [hl, hw]
    dsimp only
    have h2 : ¬ (cts = startTs ∧
        (w.writeType = WriteType.Rollback ∨ w.hasOverlappedRollback = true)) := by
      rintro ⟨he, -⟩
      omega
    rw [if_neg (Nat.not_lt.2 hle), if_neg h2]
    simp only [if_pos hgt, hw2, hs2]
    simp [hrb2]

/-- C4 witness: at `start_ts = for_update_ts = 10` against the rollback at
`commit_ts = 10`, the call fails `PessimisticLockRolledBack`. -/
theorem C4_rollback_detect_witness :
    c4State.lock = none ∧
    seekWriteMax c4State.writes = some (10, c4Rollback) ∧
    (10 : Nat) ≤ 10 ∧
    (c4Rollback.writeType = WriteType.Rollback ∨
      c4Rollback.hasOverlappedRollback = true) ∧
    acquirePessimisticLock c4State [] 10 gcKey false 0 10 false 0 =
      Except.error (MvccError.PessimisticLockRolledBack 10, []) :=
  ⟨rfl, rfl, le_refl 10, Or.inl rfl,
    C4_rollback_detect.1 c4State [] 10 gcKey false 0 10 false 0 10 c4Rollback
      rfl rfl (le_refl 10) rfl (Or.inl rfl) (Or.inr rfl)⟩

/-- C9: whenever `acquire_pessimistic_lock` returns an error, the
transaction's modification buffer is exactly as it was before the call:
every error path precedes the `put_lock`. -/
theorem C9_error_preserves_buffer (st : KeyState) (buf : List Modify)
    (startTs : Nat) (primary : List Nat) (sne : Bool) (ttl futs : Nat)
    (nv : Bool) (mcts : Nat) (e : MvccError) (buf' : List Modify)
    (h : acquirePessimisticLock st buf startTs primary sne ttl futs nv mcts =
      Except.error (e, buf')) : buf' = buf := by
  unfold acquirePessimisticLock at h
  repeat' split at h
  all_goals simp_all

/-- C9 witness: the `WriteConflict` error at a concrete input leaves the
concrete buffer `[deleteLock]` unchanged. -/
theorem C9_error_preserves_buffer_witness :
    acquirePessimisticLock c4State [Modify.deleteLock] 10 gcKey false 0 5
        false 0 =
      Except.error (MvccError.WriteConflict 10 10 10, [Modify.deleteLock]) ∧
    [Modify.deleteLock] = [Modify.deleteLock] :=
  ⟨rfl,
    C9_error_preserves_buffer c4State [Modify.deleteLock] 10 gcKey false 0 5
      false 0 (MvccError.WriteConflict 10 10 10) [Modify.deleteLock] rfl⟩

/-- Ending a batch with `deleteLock` leaves no lock. -/
theorem applyModifies_snoc_deleteLock (st : KeyState) (buf : List Modify) :
    (applyModifies st (buf ++ [Modify.deleteLock])).lock = none := by
  unfold applyModifies
  rw [List.foldl_append]
  rfl

/-- Appending a write-CF modification does not change the lock. -/
theorem applyModifies_snoc_putWrite (st : KeyState) (buf : List Modify)
    (cts : Nat) (w : Write) :
    (applyModifies st (buf ++ [Modify.putWrite cts w])).lock =
      (applyModifies st buf).lock := by
  unfold applyModifies
  rw [List.foldl_append]
  rfl

/-- C6: cleanup of the caller's own lock with non-zero `current_ts` fails
with `KeyIsLocked` (and buffers nothing) while the lock's TTL has not
expired against the physical clock; otherwise — including whenever
`current_ts` is zero, with no TTL check at all — the lock is removed. -/
theorem C6_cleanup_ttl (st : KeyState) (buf : List Modify)
    (startTs currentTs : Nat) (protect : Bool) (lock : Lock)
    (hl : st.lock = some lock) (ht : lock.ts = startTs) :
    (currentTs ≠ 0 ∧ tsPhysical lock.ts + lock.ttl ≥ tsPhysical currentTs →
      cleanup st buf startTs currentTs protect =
        Except.error (MvccError.KeyIsLocked lock, buf)) ∧
    (currentTs = 0 ∨ tsPhysical lock.ts + lock.ttl < tsPhysical currentTs →
      ∃ buf₀, cleanup st buf startTs currentTs protect =
          Except.ok (some lock, buf₀ ++ [Modify.deleteLock]) ∧
        (applyModifies st (buf₀ ++ [Modify.deleteLock])).lock = none) := by
  constructor
  · intro hc
    unfold cleanup
    rw [hl]
    dsimp only
    rw [if_pos ht, if_pos hc]
  · intro hc
    have hcond : ¬ (currentTs ≠ 0 ∧
        tsPhysical lock.ts + lock.ttl ≥ tsPhysical currentTs) := by
      rcases hc with h0 | hlt
      · rintro ⟨hne, -⟩
        exact hne h0
      · rintro ⟨-, hge⟩
        omega
    unfold cleanup
    rw [hl]
    dsimp only
    rw [if_pos ht, if_neg hcond]
    unfold checkWriteAndRollbackLock
    cases hsw : seekWrite st.writes startTs with
    | none =>
      exact ⟨_, rfl, applyModifies_snoc_deleteLock st _⟩
    | some p =>
      cases p with
      | mk cts w =>
        dsimp only
        by_cases hcw : cts = startTs ∧ w.writeType ≠ WriteType.Rollback
        · rw [if_pos hcw]
          exact ⟨_, rfl, applyModifies_snoc_deleteLock st _⟩
        · rw [if_neg hcw]
          exact ⟨_, rfl, applyModifies_snoc_deleteLock st _⟩

/-- C6 witness: with physical clock at 20 the TTL (10 + 100 ≥ 20) has not
expired, so cleanup fails `KeyIsLocked`; with `current_ts = 0` the lock is
removed without any TTL check. -/
theorem C6_cleanup_ttl_witness :
    ((20 * 2 ^ 18 : Nat) ≠ 0 ∧
      tsPhysical c6Lock.ts + c6Lock.ttl ≥ tsPhysical (20 * 2 ^ 18) ∧
      cleanup c6State [] (10 * 2 ^ 18) (20 * 2 ^ 18) true =
        Except.error (MvccError.KeyIsLocked c6Lock, [])) ∧
    (∃ buf₀, cleanup c6State [] (10 * 2 ^ 18) 0 true =
        Except.ok (some c6Lock, buf₀ ++ [Modify.deleteLock]) ∧
      (applyModifies c6State (buf₀ ++ [Modify.deleteLock])).lock = none) := by
  constructor
  · refine ⟨by norm_num, by decide, ?_⟩
    exact (C6_cleanup_ttl c6State [] (10 * 2 ^ 18) (20 * 2 ^ 18) true c6Lock
      rfl rfl).1 ⟨by norm_num, by decide⟩
  · exact (C6_cleanup_ttl c6State [] (10 * 2 ^ 18) 0 true c6Lock rfl rfl).2
      (Or.inl rfl)

/-- C10: cleanup that finds another transaction's lock (`lock.ts ≠
start_ts`) leaves that lock untouched: it returns through the missing-lock
path — possibly buffering a rollback record for its own `start_ts`, or
failing `Committed` — and the buffered additions never touch the lock. -/
theorem C10_foreign_lock_untouched (st : KeyState) (buf : List Modify)
    (startTs currentTs : Nat) (protect : Bool) (lock : Lock)
    (hl : st.lock = some lock) (ht : lock.ts ≠ startTs) :
    ∃ buf', (cleanup st buf startTs currentTs protect =
          Except.ok (none, buf') ∨
        ∃ cts, cleanup st buf startTs currentTs protect =
          Except.error (MvccError.Committed cts, buf')) ∧
      (buf' = buf ∨
        buf' = buf ++
          [Modify.putWrite startTs (rollbackRecord startTs protect)]) ∧
      (applyModifies st buf').lock = (applyModifies st buf).lock := by
  unfold cleanup
  rw [hl]
  dsimp only
  rw [if_neg ht]
  unfold checkTxnStatusMissingLock
  cases hft : findTxnRecord st.writes startTs with
  | none =>
    refine ⟨buf ++ [Modify.putWrite startTs (rollbackRecord startTs protect)],
      Or.inl rfl, Or.inr rfl, ?_⟩
    exact applyModifies_snoc_putWrite st buf startTs (rollbackRecord startTs protect)
  | some p =>
    cases p with
    | mk cts w =>
      dsimp only
      by_cases hrb : w.writeType = WriteType.Rollback ∨ w.hasOverlappedRollback = true
      · rw [if_pos hrb]
        exact ⟨buf, Or.inl rfl, Or.inl rfl, rfl⟩
      · rw [if_neg hrb]
        exact ⟨buf, Or.inr ⟨cts, rfl⟩, Or.inl rfl, rfl⟩

/-- C10 witness: transaction `start_ts = 7` cleaning up over `c6Lock`
(held by `10·2^18`) leaves the lock in place and only buffers its own
protected rollback. -/
theorem C10_foreign_lock_untouched_witness :
    ∃ buf', (cleanup c6State [] 7 0 true = Except.ok (none, buf') ∨
        ∃ cts, cleanup c6State [] 7 0 true =
          Except.error (MvccError.Committed cts, buf')) ∧
      (buf' = [] ∨
        buf' = [] ++ [Modify.putWrite 7 (rollbackRecord 7 true)]) ∧
      (applyModifies c6State buf').lock = (applyModifies c6State []).lock :=
  C10_foreign_lock_untouched c6State [] 7 0 true c6Lock rfl (by decide)

/-- With the caller's own pessimistic lock in place and a strictly larger
`for_update_ts`, the lock is overwritten. -/
theorem acquire_existing_overwrite (st : KeyState) (buf : List Modify)
    (startTs : Nat) (primary : List Nat) (sne : Bool) (ttl futs : Nat)
    (nv : Bool) (mcts : Nat) (lock : Lock)
    (hl : st.lock = some lock) (ht : lock.ts = startTs)
    (hp : lock.lockType = LockType.Pessimistic)
    (hf : futs > lock.forUpdateTs) :
    acquirePessimisticLock st buf startTs primary sne ttl futs nv mcts =
      Except.ok ((if nv then getValue st futs else none),
        buf ++ [Modify.putLock (pessimisticLock primary startTs ttl futs mcts)]) := by
  unfold acquirePessimisticLock
  rw [hl]
  dsimp only
  rw [if_neg (not_not_intro ht), if_neg (not_not_intro hp), if_pos hf]

/-- With the caller's own pessimistic lock in place and a `for_update_ts`
not above the stored one, nothing is buffered. -/
theorem acquire_existing_noop (st : KeyState) (buf : List Modify)
    (startTs : Nat) (primary : List Nat) (sne : Bool) (ttl futs : Nat)
    (nv : Bool) (mcts : Nat) (lock : Lock)
    (hl : st.lock = some lock) (ht : lock.ts = startTs)
    (hp : lock.lockType = LockType.Pessimistic)
    (hf : ¬ futs > lock.forUpdateTs) :
    acquirePessimisticLock st buf startTs primary sne ttl futs nv mcts =
      Except.ok ((if nv then getValue st futs else none), buf) := by
  unfold acquirePessimisticLock
  rw [hl]
  dsimp only
  rw [if_neg (not_not_intro ht), if_neg (not_not_intro hp), if_neg hf]

/-- A successful call buffers either nothing (duplicate request on the
caller's own lock with no larger `for_update_ts`) or exactly one fresh
pessimistic lock. -/
theorem acquire_ok_mods (st : KeyState) (startTs : Nat) (primary : List Nat)
    (sne : Bool) (ttl futs : Nat) (nv : Bool) (mcts : Nat)
    (v : Option (List Nat)) (mods : List Modify)
    (h : acquirePessimisticLock st [] startTs primary sne ttl futs nv mcts =
      Except.ok (v, mods)) :
    (mods = [] ∧ ∃ lock, st.lock = some lock ∧ lock.ts = startTs ∧
      lock.lockType = LockType.Pessimistic ∧ ¬ futs > lock.forUpdateTs) ∨
    mods = [Modify.putLock (pessimisticLock primary startTs ttl futs mcts)] := by
  unfold acquirePessimisticLock at h
  repeat' split at h
  all_goals simp_all

/-- C7: on the caller's own pessimistic lock, the lock is overwritten
exactly when the request's `for_update_ts` is strictly larger, and
otherwise nothing is buffered; consequently running
`acquire_pessimistic_lock` twice with the same parameters leaves the same
key state as running it once. -/
theorem C7_acquire_idempotent :
    (∀ (st : KeyState) (buf : List Modify) (startTs : Nat)
       (primary : List Nat) (sne : Bool) (ttl futs : Nat) (nv : Bool)
       (mcts : Nat) (lock : Lock),
       st.lock = some lock → lock.ts = startTs →
       lock.lockType = LockType.Pessimistic →
       (futs > lock.forUpdateTs →
         acquirePessimisticLock st buf startTs primary sne ttl futs nv mcts =
           Except.ok ((if nv then getValue st futs else none),
             buf ++ [Modify.putLock
               (pessimisticLock primary startTs ttl futs mcts)])) ∧
       (¬ futs > lock.forUpdateTs →
         acquirePessimisticLock st buf startTs primary sne ttl futs nv mcts =
           Except.ok ((if nv then getValue st futs else none), buf))) ∧
    (∀ (st : KeyState) (startTs : Nat) (primary : List Nat) (sne : Bool)
       (ttl futs : Nat) (nv : Bool) (mcts : Nat),
       runAcquire (runAcquire st startTs primary sne ttl futs nv mcts)
           startTs primary sne ttl futs nv mcts =
         runAcquire st startTs primary sne ttl futs nv mcts) := by
  constructor
  · intro st buf startTs primary sne ttl futs nv mcts lock hl ht hp
    exact
      ⟨fun hf => acquire_existing_overwrite st buf startTs primary sne ttl
          futs nv mcts lock hl ht hp hf,
        fun hf => acquire_existing_noop st buf startTs primary sne ttl futs
          nv mcts lock hl ht hp hf⟩
  · intro st startTs primary sne ttl futs nv mcts
    cases hres : acquirePessimisticLock st [] startTs primary sne ttl futs
        nv mcts with
    | error e =>
      have h1 : runAcquire st startTs primary sne ttl futs nv mcts = st := by
        unfold runAcquire
        rw [hres]
      rw [h1]
      exact h1
    | ok p =>
      obtain ⟨v, mods⟩ := p
      rcases acquire_ok_mods st startTs primary sne ttl futs nv mcts v mods
          hres with ⟨hm, lock, hl, ht, hp, hf⟩ | hm
      · have h1 : runAcquire st startTs primary sne ttl futs nv mcts = st := by
          unfold runAcquire
          rw [hres, hm]
          rfl
        rw [h1]
        exact h1
      · have h1 : runAcquire st startTs primary sne ttl futs nv mcts =
            { st with
              lock := some (pessimisticLock primary startTs ttl futs mcts) } := by
          unfold runAcquire
          rw [hres, hm]
          rfl
        rw [h1]
        have h2 := acquire_existing_noop
          { st with lock := some (pessimisticLock primary startTs ttl futs mcts) }
          [] startTs primary sne ttl futs nv mcts
          (pessimisticLock primary startTs ttl futs mcts) rfl rfl rfl
          (lt_irrefl futs)
        unfold runAcquire
        rw [h2]
        rfl

/-- C7 witness: a second identical acquire on a concrete key state is a
no-op, and the stored `for_update_ts` governs overwriting. -/
theorem C7_acquire_idempotent_witness :
    runAcquire (runAcquire ⟨none, [], []⟩ 5 gcKey false 10 7 false 0)
        5 gcKey false 10 7 false 0 =
      runAcquire ⟨none, [], []⟩ 5 gcKey false 10 7 false 0 :=
  C7_acquire_idempotent.2 ⟨none, [], []⟩ 5 gcKey false 10 7 false 0

/-! ### Order lemmas for encoded keys -/

theorem listLtB_irrefl (a : List Nat) : listLtB a a = false := by
  induction a with
  | nil => rfl
  | cons x xs ih => simp [listLtB, ih, Nat.lt_irrefl]

theorem listLtB_trans (a b c : List Nat) (hab : listLtB a b = true)
    (hbc : listLtB b c = true) : listLtB a c = true := by
  induction a generalizing b c with
  | nil =>
    cases b with
    | nil => simp [listLtB] at hab
    | cons y ys =>
      cases c with
      | nil => simp [listLtB] at hbc
      | cons z zs => simp [listLtB]
  | cons x xs ih =>
    cases b with
    | nil => simp [listLtB] at hab
    | cons y ys =>
      cases c with
      | nil => simp [listLtB] at hbc
      | cons z zs =>
        simp only [listLtB, Bool.or_eq_true, Bool.and_eq_true,
          decide_eq_true_eq, beq_iff_eq] at hab hbc ⊢
        rcases hab with h1 | ⟨rfl, h2⟩
        · rcases hbc with h3 | ⟨rfl, h4⟩
          · exact Or.inl (Nat.lt_trans h1 h3)
          · exact Or.inl h1
        · rcases hbc with h3 | ⟨rfl, h4⟩
          · exact Or.inl h3
          · exact Or.inr ⟨rfl, ih ys zs h2 h4⟩

theorem listLtB_eq_of_not (a b : List Nat) (hab : listLtB a b = false)
    (hba : listLtB b a = false) : a = b := by
  induction a generalizing b with
  | nil =>
    cases b with
    | nil => rfl
    | cons y ys => simp [listLtB] at hab
  | cons x xs ih =>
    cases b with
    | nil => simp [listLtB] at hba
    | cons y ys =>
      simp only [listLtB, Bool.or_eq_false_iff, Bool.and_eq_false_iff,
        decide_eq_false_iff_not, beq_eq_false_iff_ne, ne_eq] at hab hba
      have hxy : x = y := by omega
      subst hxy
      have h1 : listLtB xs ys = false := by
        rcases hab.2 with h | h
        · exact absurd rfl h
        · exact h
      have h2 : listLtB ys xs = false := by
        rcases hba.2 with h | h
        · exact absurd rfl h
        · exact h
      rw [ih ys h1 h2]

theorem physLtB_irrefl (a : PhysKey) : physLtB a a = false := by
  simp [physLtB, listLtB_irrefl, Nat.lt_irrefl]

theorem physLtB_trans (a b c : PhysKey) (hab : physLtB a b = true)
    (hbc : physLtB b c = true) : physLtB a c = true := by
  simp only [physLtB, Bool.or_eq_true, Bool.and_eq_true, decide_eq_true_eq,
    beq_iff_eq] at hab hbc ⊢
  rcases hab with h1 | ⟨he1, ht1⟩
  · rcases hbc with h2 | ⟨he2, ht2⟩
    · exact Or.inl (listLtB_trans _ _ _ h1 h2)
    · exact Or.inl (he2 ▸ h1)
  · rcases hbc with h2 | ⟨he2, ht2⟩
    · exact Or.inl (he1 ▸ h2)
    · exact Or.inr ⟨he1.trans he2, Nat.lt_trans ht2 ht1⟩

theorem physLtB_ne (a b : PhysKey) (h : physLtB a b = true) : a ≠ b := by
  intro he
  rw [he, physLtB_irrefl] at h
  cases h

theorem physLeB_iff (a b : PhysKey) :
    physLeB a b = true ↔ physLtB a b = true ∨ a = b := by
  simp [physLeB, Bool.or_eq_true, beq_iff_eq]

theorem physLeB_lt_trans (a b c : PhysKey) (hab : physLeB a b = true)
    (hbc : physLtB b c = true) : physLtB a c = true := by
  rcases (physLeB_iff a b).1 hab with h | rfl
  · exact physLtB_trans a b c h hbc
  · exact hbc

theorem physLtB_user (a b : PhysKey) (h : physLtB a b = true) :
    listLtB a.user b.user = true ∨ a.user = b.user := by
  simp only [physLtB, Bool.or_eq_true, Bool.and_eq_true, decide_eq_true_eq,
    beq_iff_eq] at h
  rcases h with h | ⟨he, -⟩
  · exact Or.inl h
  · exact Or.inr he

/-- A key strictly between `a` and a key with `a`'s user key shares that
user key. -/
theorem user_between (a b c : PhysKey) (hab : physLtB a b = true)
    (hbc : physLtB b c = true ∨ b = c) (hac : a.user = c.user) :
    b.user = a.user := by
  have h1 := physLtB_user a b hab
  have h2 : listLtB b.user c.user = true ∨ b.user = c.user := by
    rcases hbc with h | rfl
    · exact physLtB_user b c h
    · exact Or.inr rfl
  rcases h1 with h1 | h1
  · rcases h2 with h2 | h2
    · have h3 := listLtB_trans _ _ _ h1 h2
      rw [← hac, listLtB_irrefl] at h3
      cases h3
    · rw [h2, ← hac, listLtB_irrefl] at h1
      cases h1
  · exact h1.symm

/-! ### Lower-bound and sortedness lemmas -/

@[simp] theorem keyAt_cons_zero (p : PhysKey × Write)
    (rest : List (PhysKey × Write)) : keyAt (p :: rest) 0 = p.1 := by
  simp [keyAt]

@[simp] theorem keyAt_cons_succ (p : PhysKey × Write)
    (rest : List (PhysKey × Write)) (n : Nat) :
    keyAt (p :: rest) (n + 1) = keyAt rest n := by
  simp [keyAt]

theorem lowerBound_le_length (db : List (PhysKey × Write)) (mark : PhysKey) :
    lowerBound db mark ≤ db.length := by
  induction db with
  | nil => simp [lowerBound]
  | cons p rest ih =>
    simp only [lowerBound, List.length_cons]
    split
    · omega
    · omega

theorem lowerBound_lt_false (db : List (PhysKey × Write)) (mark : PhysKey)
    (i : Nat) (h : i < lowerBound db mark) :
    physLeB mark (keyAt db i) = false := by
  induction db generalizing i with
  | nil => simp [lowerBound] at h
  | cons p rest ih =>
    simp only [lowerBound] at h
    by_cases hc : physLeB mark p.1 = true
    · rw [if_pos hc] at h
      omega
    · rw [if_neg hc] at h
      cases i with
      | zero =>
        rw [keyAt_cons_zero]
        exact Bool.eq_false_iff.mpr hc
      | succ n =>
        rw [keyAt_cons_succ]
        exact ih n (by omega)

theorem lowerBound_hit (db : List (PhysKey × Write)) (mark : PhysKey)
    (h : lowerBound db mark < db.length) :
    physLeB mark (keyAt db (lowerBound db mark)) = true := by
  induction db with
  | nil => simp [lowerBound] at h
  | cons p rest ih =>
    simp only [lowerBound] at h ⊢
    by_cases hc : physLeB mark p.1 = true
    · rw [if_pos hc]
      simpa using hc
    · rw [if_neg hc] at h ⊢
      rw [keyAt_cons_succ]
      exact ih (by simpa using Nat.lt_of_succ_lt_succ h)

theorem sortedB_tail (p : PhysKey × Write) (rest : List (PhysKey × Write))
    (h : sortedB (p :: rest) = true) : sortedB rest = true := by
  cases rest with
  | nil => rfl
  | cons q t =>
    simp only [sortedB, Bool.and_eq_true] at h
    exact h.2

theorem sortedB_head_lt (p : PhysKey × Write) (rest : List (PhysKey × Write))
    (k : Nat) (h : sortedB (p :: rest) = true) (hk : k < rest.length) :
    physLtB p.1 (keyAt rest k) = true := by
  induction k generalizing p rest with
  | zero =>
    cases rest with
    | nil => simp at hk
    | cons q t =>
      simp only [sortedB, Bool.and_eq_true] at h
      simpa using h.1
  | succ n ih =>
    cases rest with
    | nil => simp at hk
    | cons q t =>
      have h1 : physLtB p.1 q.1 = true := by
        simp only [sortedB, Bool.and_eq_true] at h
        exact h.1
      have h2 : physLtB q.1 (keyAt t n) = true :=
        ih q t (sortedB_tail p (q :: t) h) (by simpa using hk)
      rw [keyAt_cons_succ]
      exact physLtB_trans _ _ _ h1 h2

theorem sortedB_get_lt (db : List (PhysKey × Write)) (i j : Nat)
    (h : sortedB db = true) (hij : i < j) (hj : j < db.length) :
    physLtB (keyAt db i) (keyAt db j) = true := by
  induction db generalizing i j with
  | nil => simp at hj
  | cons p rest ih =>
    cases i with
    | zero =>
      cases j with
      | zero => omega
      | succ m =>
        rw [keyAt_cons_zero, keyAt_cons_succ]
        exact sortedB_head_lt p rest m h (by simpa using hj)
    | succ n =>
      cases j with
      | zero => omega
      | succ m =>
        rw [keyAt_cons_succ, keyAt_cons_succ]
        exact ih n m (sortedB_tail _ _ h) (by omega) (by simpa using hj)

/-! ### Iterator positioning -/

/-- Starting at or before the lower bound of `mark`, the `next`-scan either
lands exactly on the lower bound (found) or stops without finding, still at
or before the lower bound, reporting validity of its final position. -/
theorem nearLoop_cases (db : List (PhysKey × Write)) (mark : PhysKey)
    (fuel pos : Nat) (h : pos ≤ lowerBound db mark) :
    (lowerBound db mark < db.length ∧ lowerBound db mark < pos + fuel ∧
      nearLoop db mark fuel pos = (lowerBound db mark, true, true)) ∨
    (∃ p', p' ≤ lowerBound db mark ∧
      nearLoop db mark fuel pos = (p', decide (p' < db.length), false)) := by
  induction fuel generalizing pos with
  | zero =>
    unfold nearLoop
    by_cases hp : pos ≥ db.length
    · rw [if_pos hp]
      refine Or.inr ⟨pos, h, ?_⟩
      rw [decide_eq_false (by omega)]
    · rw [if_neg hp]
      refine Or.inr ⟨pos, h, ?_⟩
      rw [decide_eq_true (by omega)]
  | succ fuel ih =>
    unfold nearLoop
    by_cases hp : pos ≥ db.length
    · rw [if_pos hp]
      refine Or.inr ⟨pos, h, ?_⟩
      rw [decide_eq_false (by omega)]
    · rw [if_neg hp]
      dsimp only
      by_cases hpred : physLeB mark (db.getD pos dummyEntry).1 = true
      · rw [if_pos hpred]
        have hpos : pos = lowerBound db mark := by
          rcases Nat.lt_or_ge pos (lowerBound db mark) with hlt | hge
          · rw [show (db.getD pos dummyEntry).1 = keyAt db pos from rfl,
              lowerBound_lt_false db mark pos hlt] at hpred
            cases hpred
          · omega
        subst hpos
        exact Or.inl ⟨by omega, by omega, rfl⟩
      · rw [if_neg hpred]
        have hlt : pos < lowerBound db mark := by
          rcases Nat.lt_or_ge pos (lowerBound db mark) with hlt | hge
          · exact hlt
          · have hpe : pos = lowerBound db mark := by omega
            subst hpe
            exact absurd (lowerBound_hit db mark (by omega)) hpred
        rcases ih (pos + 1) (by omega) with ⟨h1, h2, h3⟩ | ⟨p', hp', h3⟩
        · exact Or.inl ⟨h1, by omega, h3⟩
        · exact Or.inr ⟨p', hp', h3⟩

/-- `write_iter_seek_to` positions the iterator exactly at the lower bound
of `mark` — through either the direct `seek` or the `next`-scan with its
`seek` fallback — provided the iterator was not already past it (or a
direct `seek` is forced). -/
theorem writeIterSeekTo_spec (s : FilterState) (mark : PhysKey)
    (h : s.iterPos ≤ lowerBound s.db mark ∨
      s.nearSeekDistance ≥ NEAR_SEEK_LIMIT) :
    writeIterSeekTo s mark =
      ({ s with nearSeekDistance := 0, iterPos := lowerBound s.db mark },
        decide (lowerBound s.db mark < s.db.length)) := by
  unfold writeIterSeekTo
  by_cases hn : s.nearSeekDistance ≥ NEAR_SEEK_LIMIT
  · rw [if_pos hn]
  · rw [if_neg hn]
    have hpos : s.iterPos ≤ lowerBound s.db mark := by
      rcases h with h | h
      · exact h
      · exact absurd h hn
    rcases nearLoop_cases s.db mark (NEAR_SEEK_LIMIT + 1) s.iterPos hpos with
      ⟨h1, h2, h3⟩ | ⟨p', hp', h3⟩
    · rw [h3]
      dsimp only
      rw [if_neg (by simp), decide_eq_true h1]
    · rw [h3]
      dsimp only
      by_cases hplen : p' < s.db.length
      · rw [decide_eq_true hplen, if_pos (by simp)]
      · rw [decide_eq_false hplen, if_neg (by simp)]
        have hle := lowerBound_le_length s.db mark
        have hpe : p' = lowerBound s.db mark := by omega
        subst hpe
        rw [decide_eq_false hplen]

/-! ### Batch bookkeeping -/

/-- Flushing moves pending operations to the engine; the cumulative list
of issued deletions is unchanged. -/
theorem cumOps_flush (s : FilterState) :
    cumOps (flushPendingWritesIfNeed s) = cumOps s := by
  unfold flushPendingWritesIfNeed cumOps
  split
  · simp
  · rfl

@[simp] theorem flush_db (s : FilterState) :
    (flushPendingWritesIfNeed s).db = s.db := by
  unfold flushPendingWritesIfNeed
  split <;> rfl

@[simp] theorem flush_keyPfx (s : FilterState) :
    (flushPendingWritesIfNeed s).keyPfx = s.keyPfx := by
  unfold flushPendingWritesIfNeed
  split <;> rfl

@[simp] theorem flush_iterPos (s : FilterState) :
    (flushPendingWritesIfNeed s).iterPos = s.iterPos := by
  unfold flushPendingWritesIfNeed
  split <;> rfl

/-- `handle_filtered_write` issues the default-CF deletion exactly for a
`Put` with no inline short value. -/
theorem cumOps_hfw (s : FilterState) (w : Write) :
    cumOps (handleFilteredWrite s w) =
      if w.shortValue = none ∧ w.writeType = WriteType.Put then
        cumOps s ++ [BatchOp.delDefault ⟨s.keyPfx, w.startTs⟩]
      else cumOps s := by
  unfold handleFilteredWrite
  split
  · rw [cumOps_flush]
    unfold cumOps
    simp
  · rfl

@[simp] theorem hfw_db (s : FilterState) (w : Write) :
    (handleFilteredWrite s w).db = s.db := by
  unfold handleFilteredWrite
  split <;> simp

@[simp] theorem hfw_keyPfx (s : FilterState) (w : Write) :
    (handleFilteredWrite s w).keyPfx = s.keyPfx := by
  unfold handleFilteredWrite
  split <;> simp

@[simp] theorem hfw_iterPos (s : FilterState) (w : Write) :
    (handleFilteredWrite s w).iterPos = s.iterPos := by
  unfold handleFilteredWrite
  split <;> simp

/-- `delete_write_key` always issues the write-CF deletion. -/
theorem cumOps_dwk (s : FilterState) (k : PhysKey) :
    cumOps (deleteWriteKey s k) = cumOps s ++ [BatchOp.delWrite k] := by
  unfold deleteWriteKey
  have h := cumOps_flush
    { s with writeBatch := s.writeBatch ++ [BatchOp.delWrite k] }
  unfold cumOps at h ⊢
  simp at h ⊢
  rw [h]

@[simp] theorem dwk_db (s : FilterState) (k : PhysKey) :
    (deleteWriteKey s k).db = s.db := by
  unfold deleteWriteKey
  simp

@[simp] theorem dwk_keyPfx (s : FilterState) (k : PhysKey) :
    (deleteWriteKey s k).keyPfx = s.keyPfx := by
  unfold deleteWriteKey
  simp

@[simp] theorem dwk_iterPos (s : FilterState) (k : PhysKey) :
    (deleteWriteKey s k).iterPos = s.iterPos := by
  unfold deleteWriteKey
  simp

/-- The deletion loop never forgets an already-issued operation. -/
theorem hdmLoop_mono (fuel : Nat) (s : FilterState) (x : BatchOp)
    (hx : x ∈ cumOps s) : x ∈ cumOps (hdmLoop s fuel) := by
  induction fuel generalizing s with
  | zero => exact hx
  | succ fuel ih =>
    unfold hdmLoop
    split
    · dsimp only
      split
      · exact hx
      · apply ih
        have h1 : x ∈ cumOps (handleFilteredWrite s
            (s.db.getD s.iterPos dummyEntry).2) := by
          rw [cumOps_hfw]
          split
          · exact List.mem_append_left _ hx
          · exact hx
        have h2 : x ∈ cumOps (deleteWriteKey
            (handleFilteredWrite s (s.db.getD s.iterPos dummyEntry).2)
            (s.db.getD s.iterPos dummyEntry).1) := by
          rw [cumOps_dwk]
          exact List.mem_append_left _ h1
        exact h2
    · exact hx

/-- `cumOps` ignores the iterator position. -/
theorem cumOps_setIterPos (s : FilterState) (n : Nat) :
    cumOps { s with iterPos := n } = cumOps s := rfl

/-- The deletion loop of `handle_delete_mark` issues a write-CF delete for
every record from the iterator position on (while the user key matches
`key_prefix` up to that record), and a default-CF delete for each such
record that is a `Put` with no inline short value. -/
theorem hdmLoop_deletes (fuel : Nat) :
    ∀ (s : FilterState) (i : Nat),
    fuel = s.db.length - s.iterPos →
    s.iterPos ≤ i → i < s.db.length →
    (∀ j, s.iterPos ≤ j → j ≤ i → (keyAt s.db j).user = s.keyPfx) →
    BatchOp.delWrite (keyAt s.db i) ∈ cumOps (hdmLoop s fuel) ∧
    ((s.db.getD i dummyEntry).2.writeType = WriteType.Put →
      (s.db.getD i dummyEntry).2.shortValue = none →
      BatchOp.delDefault ⟨s.keyPfx, (s.db.getD i dummyEntry).2.startTs⟩ ∈
        cumOps (hdmLoop s fuel)) := by
  induction fuel with
  | zero =>
    intro s i hf hle hlt huser
    omega
  | succ fuel ih =>
    intro s i hf hle hlt huser
    have hpos : s.iterPos < s.db.length := Nat.lt_of_le_of_lt hle hlt
    unfold hdmLoop
    dsimp only
    rw [if_pos hpos]
    have hkey : (s.db.getD s.iterPos dummyEntry).1.user = s.keyPfx :=
      huser s.iterPos (Nat.le_refl _) hle
    rw [if_neg (not_not_intro hkey)]
    set w0 := (s.db.getD s.iterPos dummyEntry).2 with hw0
    set k0 := (s.db.getD s.iterPos dummyEntry).1 with hk0
    set s2 := deleteWriteKey (handleFilteredWrite s w0) k0 with hs2
    set s3 := { s2 with iterPos := s2.iterPos + 1 } with hs3
    have hdb : s3.db = s.db := by
      rw [hs3, hs2]
      simp
    have hkp : s3.keyPfx = s.keyPfx := by
      rw [hs3, hs2]
      simp
    have hip : s3.iterPos = s.iterPos + 1 := by
      rw [hs3, hs2]
      simp
    by_cases hieq : s.iterPos = i
    · constructor
      · refine hdmLoop_mono fuel s3 _ ?_
        rw [hs3, cumOps_setIterPos, hs2, cumOps_dwk]
        refine List.mem_append_right _ ?_
        subst hieq
        simp [hk0, keyAt]
      · intro hput hshort
        refine hdmLoop_mono fuel s3 _ ?_
        rw [hs3, cumOps_setIterPos, hs2, cumOps_dwk]
        refine List.mem_append_left _ ?_
        rw [cumOps_hfw]
        subst hieq
        rw [if_pos ⟨by rw [hw0]; exact hshort, by rw [hw0]; exact hput⟩]
        refine List.mem_append_right _ ?_
        simp [hw0]
      -- done with the hit case
    · have hfuel3 : fuel = s3.db.length - s3.iterPos := by
        rw [hdb, hip]
        omega
      have hle3 : s3.iterPos ≤ i := by
        rw [hip]
        omega
      have hlt3 : i < s3.db.length := by
        rw [hdb]
        exact hlt
      have huser3 : ∀ j, s3.iterPos ≤ j → j ≤ i →
          (keyAt s3.db j).user = s3.keyPfx := by
        intro j hj1 hj2
        rw [hdb, hkp]
        refine huser j ?_ hj2
        rw [hip] at hj1
        omega
      obtain ⟨g1, g2⟩ := ih s3 i hfuel3 hle3 hlt3 huser3
      rw [hdb] at g1 g2
      rw [hkp] at g2
      exact ⟨g1, g2⟩

/-- C3: when the filter drops a `Delete` marker, the delete-mark walk
issues a write-CF deletion for every record of the same user key after the
marker in iteration order, and a default-CF deletion at `(k, start_ts)`
for each such record that is a `Put` with no inline short value; run on
scenario S4 (puts at 110 and 130, delete marker at 145, safe-point 200),
no write or default records for the key remain after the compaction. -/
theorem C3_delete_mark_walk :
    (∀ (s : FilterState) (mark : PhysKey) (i : Nat),
      sortedB s.db = true →
      (s.iterPos ≤ lowerBound s.db mark ∨
        s.nearSeekDistance ≥ NEAR_SEEK_LIMIT) →
      s.keyPfx = mark.user →
      i < s.db.length →
      (keyAt s.db i).user = mark.user →
      (keyAt s.db i).ts < mark.ts →
      BatchOp.delWrite (keyAt s.db i) ∈ cumOps (handleDeleteMark s mark) ∧
      ((s.db.getD i dummyEntry).2.writeType = WriteType.Put →
        (s.db.getD i dummyEntry).2.shortValue = none →
        BatchOp.delDefault ⟨mark.user, (s.db.getD i dummyEntry).2.startTs⟩ ∈
          cumOps (handleDeleteMark s mark))) ∧
    (remainingWrites 200 s4Db s4Db = [] ∧
      remainingDefaults 200 s4Db s4Db s4Defaults = []) := by
  constructor
  · intro s mark i hs hseek hkp hi hu hts
    have hmk : physLtB mark (keyAt s.db i) = true := by
      simp only [physLtB, Bool.or_eq_true, Bool.and_eq_true,
        decide_eq_true_eq, beq_iff_eq]
      exact Or.inr ⟨hu.symm, hts⟩
    have hlb_le : lowerBound s.db mark ≤ i := by
      by_contra hcon
      push_neg at hcon
      have h1 := lowerBound_lt_false s.db mark i hcon
      have h2 : physLeB mark (keyAt s.db i) = true :=
        (physLeB_iff _ _).mpr (Or.inl hmk)
      rw [h1] at h2
      cases h2
    have hlb_lt : lowerBound s.db mark < s.db.length :=
      Nat.lt_of_le_of_lt hlb_le hi
    unfold handleDeleteMark
    rw [writeIterSeekTo_spec s mark hseek]
    dsimp only
    rw [decide_eq_true hlb_lt]
    by_cases hmkin : keyAt s.db (lowerBound s.db mark) = mark
    · rw [if_pos ⟨rfl, hmkin⟩]
      have hne : i ≠ lowerBound s.db mark := by
        intro he
        rw [he, hmkin, physLtB_irrefl] at hmk
        cases hmk
      have huw : ∀ j, lowerBound s.db mark + 1 ≤ j → j ≤ i →
          (keyAt s.db j).user = s.keyPfx := by
        intro j hj1 hj2
        rw [hkp]
        have hmj : physLtB mark (keyAt s.db j) = true := by
          have hlbj := sortedB_get_lt s.db (lowerBound s.db mark) j hs
            (by omega) (by omega)
          rw [hmkin] at hlbj
          exact hlbj
        have hji : physLtB (keyAt s.db j) (keyAt s.db i) = true ∨
            keyAt s.db j = keyAt s.db i := by
          rcases Nat.lt_or_ge j i with h | h
          · exact Or.inl (sortedB_get_lt s.db j i hs h hi)
          · have hje : j = i := by omega
            rw [hje]
            exact Or.inr rfl
        exact user_between mark (keyAt s.db j) (keyAt s.db i) hmj hji hu.symm
      obtain ⟨g1, g2⟩ := hdmLoop_deletes
        (s.db.length - (lowerBound s.db mark + 1))
        ({ s with nearSeekDistance := 0, iterPos := lowerBound s.db mark + 1 })
        i rfl (by show lowerBound s.db mark + 1 ≤ i; omega) hi huw
      constructor
      · exact g1
      · intro hput hshort
        have g := g2 hput hshort
        dsimp only at g
        rw [← hkp]
        exact g
    · rw [if_neg (fun h => hmkin h.2)]
      have hlb0 : physLtB mark (keyAt s.db (lowerBound s.db mark)) = true := by
        rcases (physLeB_iff _ _).1 (lowerBound_hit s.db mark hlb_lt) with h | h
        · exact h
        · exact absurd h.symm hmkin
      have huw : ∀ j, lowerBound s.db mark ≤ j → j ≤ i →
          (keyAt s.db j).user = s.keyPfx := by
        intro j hj1 hj2
        rw [hkp]
        have hmj : physLtB mark (keyAt s.db j) = true := by
          rcases Nat.lt_or_ge (lowerBound s.db mark) j with h | h
          · exact physLtB_trans _ _ _ hlb0
              (sortedB_get_lt s.db (lowerBound s.db mark) j hs h (by omega))
          · have hje : j = lowerBound s.db mark := by omega
            rw [hje]
            exact hlb0
        have hji : physLtB (keyAt s.db j) (keyAt s.db i) = true ∨
            keyAt s.db j = keyAt s.db i := by
          rcases Nat.lt_or_ge j i with h | h
          · exact Or.inl (sortedB_get_lt s.db j i hs h hi)
          · have hje : j = i := by omega
            rw [hje]
            exact Or.inr rfl
        exact user_between mark (keyAt s.db j) (keyAt s.db i) hmj hji hu.symm
      obtain ⟨g1, g2⟩ := hdmLoop_deletes
        (s.db.length - lowerBound s.db mark)
        ({ s with nearSeekDistance := 0, iterPos := lowerBound s.db mark })
        i rfl hlb_le hi huw
      constructor
      · exact g1
      · intro hput hshort
        have g := g2 hput hshort
        dsimp only at g
        rw [← hkp]
        exact g
  · constructor
    · decide
    · decide

/-- C3 witness: dropping the delete marker at `(k, 145)` side-band-deletes
the older version `(k, 130)` sitting after it in iteration order. -/
theorem C3_delete_mark_walk_witness :
    sortedB s4Db = true ∧
    (1 : Nat) < s4Db.length ∧
    (keyAt s4Db 1).user = gcKey ∧
    (keyAt s4Db 1).ts < 145 ∧
    BatchOp.delWrite (keyAt s4Db 1) ∈ cumOps
      (handleDeleteMark
        { newFilter 200 s4Db with keyPfx := gcKey, iterPos := 0 }
        ⟨gcKey, 145⟩) :=
  ⟨by decide, by decide, by decide, by decide,
    (C3_delete_mark_walk.1
      { newFilter 200 s4Db with keyPfx := gcKey, iterPos := 0 }
      ⟨gcKey, 145⟩ 1 (by decide) (Or.inl (by decide)) rfl (by decide)
      (by decide) (by decide)).1⟩

end Tikv
